import Mathlib

/-!
# Verification of the parrot IM client library (pool, token manager, retry delivery)

Shallow embedding of the Go sources:
* `types/` package: message/target/option/error values,
* `lark/lark.go`, `telegram/telegram.go`, `wechat/wechat.go`: the multi-target
  send-with-retry algorithm (textually identical in the three files), the
  token manager (identical in `lark` and `wechat`), and `Close`,
* `dingtalk/dingtalk.go`: the single-webhook send and `Close`,
* `pool.go`: the client pool (`GetOrCreate`, `Get`, `Remove`, `Size`,
  `cleanupIdle`, `Close`).

Outbound HTTP calls are abstracted as oracles: a per-attempt result function
stands for `sendToSingleTarget`, an `Except` value stands for the token
endpoint's reply, and a close-result function stands for an adapter's
`Close`.  Effects that the claims talk about (backoff sleeps, eviction-time
`Close` calls, stopping the eviction loop, closing the shared transport) are
reified as explicit event traces.
-/

set_option maxHeartbeats 1000000

namespace Parrot

/-! ## The `types` package -/

/-- `types.MessageType` (a Go string; the adapters switch on the three
    named constants, every other string falls to the `default` branch). -/
inductive MessageType where
  | text
  | markdown
  | card
  | other (s : String)
deriving DecidableEq, Repr

/-- `types.Message` (the open `Data` map is not needed by any claim and is
    carried opaquely by the oracles). -/
structure Message where
  type : MessageType
  content : String
deriving DecidableEq, Repr

/-- `types.ChatType`. -/
inductive ChatType where
  | priv
  | group
deriving DecidableEq, Repr

/-- `types.Target`. -/
structure Target where
  id : String
  chatType : ChatType
deriving DecidableEq, Repr

/-- `types.SendOptions` (the `Extra` map is unused by every adapter's send
    path that the claims mention). -/
structure SendOptions where
  targets : List Target
  atUsers : List String
deriving DecidableEq, Repr

/-- `types.FailedTarget`.  A Go `error` value is modelled by its message
    string; the field is nilable, hence `Option`. -/
structure FailedTarget where
  target : Target
  error : Option String
deriving DecidableEq, Repr

/-- `types.SendError`. -/
structure SendError where
  failedTargets : List FailedTarget
  successCount : Nat
  totalCount : Nat
deriving DecidableEq, Repr

/-- A Go `error` result as returned by the adapters' `SendMessage`: either a
    plain `fmt.Errorf` error or a structured `*types.SendError`. -/
inductive GoError where
  | simple (msg : String)
  | sendError (e : SendError)
deriving DecidableEq, Repr

/-! ## The multi-target send-with-retry algorithm

The following loop appears verbatim in `lark.Client.SendMessage`,
`telegram.Client.SendMessage` and `wechat.Client.SendMessage`:

```go
const maxRetries = 3
for _, target := range opts.Targets {
    var lastErr error
    sent := false
    for retry := 0; retry < maxRetries; retry++ {
        if err := c.sendToSingleTarget(ctx, msg, target); err != nil {
            lastErr = err
            if retry < maxRetries-1 {
                time.Sleep(time.Duration(100*(retry+1)) * time.Millisecond)
            }
        } else {
            sent = true; successCount++; break
        }
    }
    if !sent { failedTargets = append(failedTargets, {target, lastErr}) }
}
```

`sendToSingleTarget` is abstracted by an oracle `attempt : Target → Nat →
Option String` giving the error (or `none` for success) of the `retry`-th
attempt for a target.  Sleeps are recorded (in milliseconds) instead of
performed. -/

/-- The constant `maxRetries = 3` of the three adapters. -/
def maxRetries : Nat := 3

/-- Observable outcome of the inner retry loop for one target: whether the
    target was sent, the final value of `lastErr`, how many times
    `sendToSingleTarget` was invoked, and the sleeps performed (ms). -/
structure TargetOutcome where
  sent : Bool
  lastErr : Option String
  attempts : Nat
  sleeps : List Nat
deriving DecidableEq, Repr

/-- The inner `for retry := 0; retry < maxRetries; retry++` loop, written
    with the remaining iteration count `fuel = maxRetries - retry` as the
    recursion measure.  `f retry` is the result of the attempt numbered
    `retry` (0-based). -/
def retryAux (f : Nat → Option String) : Nat → Nat → Option String → TargetOutcome
  | 0, _, lastErr => ⟨false, lastErr, 0, []⟩
  | fuel + 1, retry, lastErr =>
    match f retry with
    | some err =>
      let rest := retryAux f fuel (retry + 1) (some err)
      ⟨rest.sent, rest.lastErr, rest.attempts + 1,
        (if retry < maxRetries - 1 then [100 * (retry + 1)] else []) ++ rest.sleeps⟩
    | none => ⟨true, lastErr, 1, []⟩

/-- The retry loop for one target, entered with `retry = 0`, `lastErr = nil`,
    `sent = false`. -/
def retryTarget (f : Nat → Option String) : TargetOutcome :=
  retryAux f maxRetries 0 none

/-- Accumulated observations of the outer per-target loop. -/
structure MultiSendTrace where
  failedTargets : List FailedTarget
  successCount : Nat
  perTarget : List (Target × TargetOutcome)
deriving DecidableEq, Repr

/-- The outer `for _, target := range opts.Targets` loop. -/
def sendToTargets (attempt : Target → Nat → Option String) :
    List Target → MultiSendTrace
  | [] => ⟨[], 0, []⟩
  | t :: rest =>
    let o := retryTarget (attempt t)
    let r := sendToTargets attempt rest
    ⟨(if o.sent then [] else [⟨t, o.lastErr⟩]) ++ r.failedTargets,
      (if o.sent then 1 else 0) + r.successCount,
      (t, o) :: r.perTarget⟩

/-- The aggregation after the loop: `if len(failedTargets) > 0 { return
    &types.SendError{...} }; return nil`. -/
def multiSendResult (tr : MultiSendTrace) (total : Nat) : Option GoError :=
  if tr.failedTargets.length > 0 then
    some (.sendError ⟨tr.failedTargets, tr.successCount, total⟩)
  else
    none

/-- `lark.Client.SendMessage`.  A `none` message or options models a nil Go
    pointer.  `webhookURL` is `c.config.WebhookURL`; `webhookResult` is the
    abstracted result of `sendViaWebhook`.  Returns the Go error together
    with the per-target observations. -/
def larkSendMessage (webhookURL : String) (webhookResult : Option GoError)
    (msg : Option Message) (opts : Option SendOptions)
    (attempt : Target → Nat → Option String) :
    Option GoError × List (Target × TargetOutcome) :=
  match msg, opts with
  | some _, some o =>
    if webhookURL ≠ "" then
      (webhookResult, [])
    else if o.targets.length = 0 then
      (some (.simple "at least one target is required"), [])
    else
      let tr := sendToTargets attempt o.targets
      (multiSendResult tr o.targets.length, tr.perTarget)
  | _, _ => (some (.simple "message and options cannot be nil"), [])

/-- `telegram.Client.SendMessage` (identical to the Lark one minus the
    webhook branch); `wechat.Client.SendMessage` has the same body. -/
def telegramSendMessage (msg : Option Message) (opts : Option SendOptions)
    (attempt : Target → Nat → Option String) :
    Option GoError × List (Target × TargetOutcome) :=
  match msg, opts with
  | some _, some o =>
    if o.targets.length = 0 then
      (some (.simple "at least one target is required"), [])
    else
      let tr := sendToTargets attempt o.targets
      (multiSendResult tr o.targets.length, tr.perTarget)
  | _, _ => (some (.simple "message and options cannot be nil"), [])

/-! ### Specification-side views of the retry loop -/

/-- Index (0-based) of a target's first successful attempt within the retry
    budget, if any. -/
def firstSuccess (f : Nat → Option String) : Option Nat :=
  (List.range maxRetries).find? (fun k => (f k).isNone)

/-- Whether a target gets delivered within the retry budget. -/
def succeeds (f : Nat → Option String) : Bool :=
  (firstSuccess f).isSome

/-- Number of attempts the loop performs: up to and including the first
    success, or the whole budget. -/
def attemptsSpec (f : Nat → Option String) : Nat :=
  match firstSuccess f with
  | some k => k + 1
  | none => maxRetries

theorem range_maxRetries : List.range maxRetries = [0, 1, 2] := by decide

/-- Case-by-case characterisation of the inner retry loop. -/
theorem retryTarget_spec (f : Nat → Option String) :
    (retryTarget f).sent = succeeds f ∧
    (retryTarget f).attempts = attemptsSpec f ∧
    (retryTarget f).sleeps =
      (List.range ((retryTarget f).attempts - 1)).map (fun r => 100 * (r + 1)) ∧
    ((retryTarget f).sent = false → (retryTarget f).lastErr = f 2) := by
  rcases h0 : f 0 with _ | e0 <;> rcases h1 : f 1 with _ | e1 <;>
    rcases h2 : f 2 with _ | e2 <;>
    simp [retryTarget, retryAux, maxRetries, succeeds, attemptsSpec, firstSuccess,
      h0, h1, h2, List.range_succ, List.find?]

/-- Characterisation of the outer per-target loop. -/
theorem sendToTargets_spec (attempt : Target → Nat → Option String)
    (ts : List Target) :
    (sendToTargets attempt ts).perTarget.map Prod.fst = ts ∧
    (∀ p ∈ (sendToTargets attempt ts).perTarget, p.2 = retryTarget (attempt p.1)) ∧
    (sendToTargets attempt ts).failedTargets =
      (ts.filter (fun t => !succeeds (attempt t))).map
        (fun t => ⟨t, (retryTarget (attempt t)).lastErr⟩) ∧
    (sendToTargets attempt ts).successCount =
      (ts.filter (fun t => succeeds (attempt t))).length := by
  induction ts with
  | nil => simp [sendToTargets]
  | cons t rest ih =>
    obtain ⟨ih1, ih2, ih3, ih4⟩ := ih
    have hs := retryTarget_spec (attempt t)
    refine ⟨?_, ?_, ?_, ?_⟩
    · simp [sendToTargets, ih1]
    · intro p hp
      simp only [sendToTargets, List.mem_cons] at hp
      rcases hp with hp1 | hp1
      · simp [hp1]
      · exact ih2 p hp1
    · by_cases h : succeeds (attempt t) = true
      · simp [sendToTargets, hs.1, h, ih3]
      · simp only [Bool.not_eq_true] at h
        simp [sendToTargets, hs.1, h, ih3]
    · by_cases h : succeeds (attempt t) = true
      · simp [sendToTargets, hs.1, h, ih4, Nat.add_comm]
      · simp only [Bool.not_eq_true] at h
        simp [sendToTargets, hs.1, h, ih4]

/-- A successful first attempt index lies inside the retry budget. -/
theorem firstSuccess_lt (f : Nat → Option String) (k : Nat)
    (h : firstSuccess f = some k) : k < maxRetries := by
  have hmem := List.mem_of_find?_eq_some h
  exact List.mem_range.mp hmem

theorem attemptsSpec_le (f : Nat → Option String) : attemptsSpec f ≤ maxRetries := by
  unfold attemptsSpec
  cases h : firstSuccess f with
  | none => exact Nat.le_refl _
  | some k => exact firstSuccess_lt f k h

/-- C1: for a non-nil message, non-nil options with a non-empty target list,
    and (for Lark) no webhook URL, `SendMessage` of the Lark and Telegram
    adapters behaves identically; it processes targets in list order,
    attempts each target at most 3 times stopping at the first success,
    sleeps `100ms × attempt-number` between consecutive failed attempts and
    never after the final one, returns nil iff every target succeeds, and
    otherwise returns a `SendError` with the stated counts and the failed
    targets, in order, paired with the last error observed. -/
theorem sendMessage_retry_correct
    (webhookResult : Option GoError) (msg : Message) (opts : SendOptions)
    (attempt : Target → Nat → Option String)
    (hne : opts.targets ≠ []) :
    larkSendMessage "" webhookResult (some msg) (some opts) attempt =
        telegramSendMessage (some msg) (some opts) attempt ∧
    (telegramSendMessage (some msg) (some opts) attempt).2.map Prod.fst =
        opts.targets ∧
    (∀ p ∈ (telegramSendMessage (some msg) (some opts) attempt).2,
        p.2.attempts ≤ 3 ∧
        p.2.attempts = attemptsSpec (attempt p.1) ∧
        p.2.sent = succeeds (attempt p.1) ∧
        p.2.sleeps = (List.range (p.2.attempts - 1)).map (fun r => 100 * (r + 1)) ∧
        (p.2.sent = false → p.2.lastErr = attempt p.1 2)) ∧
    ((∀ t ∈ opts.targets, succeeds (attempt t)) →
        (telegramSendMessage (some msg) (some opts) attempt).1 = none) ∧
    ((∃ t ∈ opts.targets, ¬ succeeds (attempt t)) →
        (telegramSendMessage (some msg) (some opts) attempt).1 =
          some (.sendError
            ⟨(opts.targets.filter (fun t => !succeeds (attempt t))).map
                (fun t => ⟨t, attempt t 2⟩),
              (opts.targets.filter (fun t => succeeds (attempt t))).length,
              opts.targets.length⟩)) := by
  have hlen : ¬ opts.targets.length = 0 := by
    simpa [List.length_eq_zero] using hne
  obtain ⟨hmap, hper, hfail, hsucc⟩ := sendToTargets_spec attempt opts.targets
  have htel : telegramSendMessage (some msg) (some opts) attempt =
      (multiSendResult (sendToTargets attempt opts.targets) opts.targets.length,
        (sendToTargets attempt opts.targets).perTarget) := by
    simp [telegramSendMessage, hlen]
  refine ⟨?_, ?_, ?_, ?_, ?_⟩
  · simp [larkSendMessage, telegramSendMessage, hlen]
  · rw [htel]; exact hmap
  · rw [htel]
    intro p hp
    have hpe := hper p hp
    obtain ⟨h1, h2, h3, h4⟩ := retryTarget_spec (attempt p.1)
    rw [hpe]
    exact ⟨h2 ▸ attemptsSpec_le (attempt p.1), h2, h1, h3, h4⟩
  · intro hall
    rw [htel]
    have hfilter : opts.targets.filter (fun t => !succeeds (attempt t)) = [] := by
      simp only [List.filter_eq_nil_iff]
      intro t ht
      simp [hall t ht]
    simp [multiSendResult, hfail, hfilter]
  · intro hex
    rw [htel]
    obtain ⟨t0, ht0, hns⟩ := hex
    have hfilter : t0 ∈ opts.targets.filter (fun t => !succeeds (attempt t)) := by
      simp only [List.mem_filter]
      exact ⟨ht0, by simpa using hns⟩
    have hpos : 0 < (sendToTargets attempt opts.targets).failedTargets.length := by
      rw [hfail]
      simp only [List.length_map]
      exact List.length_pos_of_mem hfilter
    have hmapeq :
        (opts.targets.filter (fun t => !succeeds (attempt t))).map
            (fun t => FailedTarget.mk t ((retryTarget (attempt t)).lastErr)) =
          (opts.targets.filter (fun t => !succeeds (attempt t))).map
            (fun t => FailedTarget.mk t (attempt t 2)) := by
      apply List.map_congr_left
      intro t ht
      obtain ⟨h1, h2, h3, h4⟩ := retryTarget_spec (attempt t)
      have hts : succeeds (attempt t) = false := by
        have := (List.mem_filter.mp ht).2
        simpa using this
      rw [h4 (by rw [h1, hts])]
    have hpos2 : 0 <
        ((opts.targets.filter (fun t => !succeeds (attempt t))).map
          (fun t => FailedTarget.mk t (attempt t 2))).length := by
      simp only [List.length_map]
      exact List.length_pos_of_mem hfilter
    simp only [multiSendResult, hfail, hsucc, hmapeq, gt_iff_lt, hpos2, if_pos]

/-- Concrete targets for the witness: `A` always succeeds, `B` fails twice
    then succeeds, `C` always fails (the spec's own test scenario). -/
def targetA : Target := ⟨"A", .priv⟩

def targetB : Target := ⟨"B", .priv⟩

def targetC : Target := ⟨"C", .group⟩

def attemptW : Target → Nat → Option String := fun t k =>
  if t.id = "A" then none
  else if t.id = "B" then (if k < 2 then some "bErr" else none)
  else some "cErr"

def msgW : Message := ⟨.text, "hello"⟩

def optsW : SendOptions := ⟨[targetA, targetB, targetC], []⟩

/-- Witness for C1: on the spec's A/B/C scenario the send reports
    `successCount = 2`, `totalCount = 3`, and exactly the failed entry for
    `C` with its last error. -/
theorem sendMessage_retry_correct_witness :
    optsW.targets ≠ [] ∧
    (telegramSendMessage (some msgW) (some optsW) attemptW).1 =
      some (.sendError ⟨[⟨targetC, some "cErr"⟩], 2, 3⟩) := by
  refine ⟨by decide, ?_⟩
  have h :=
    (sendMessage_retry_correct none msgW optsW attemptW (by decide)).2.2.2.2
  rw [h (by decide)]
  decide

/-! ## DingTalk: single webhook delivery (`dingtalk/dingtalk.go`) -/

/-- The request body built by `dingtalk.Client.SendMessage`: message type
    tag, textual payload, the fixed markdown title, and the optional
    `at` block (`atMobiles`, `isAtAll`). -/
structure DingBody where
  msgtype : String
  content : String
  title : Option String
  atBlock : Option (List String × Bool)
deriving DecidableEq, Repr

/-- The `switch msg.Type` of `dingtalk.Client.SendMessage`: text and
    markdown attach the `at` block when `opts.AtUsers` is non-empty, the
    default branch sends plain text without an `at` block. -/
def dingtalkBody (msgType : MessageType) (content : String)
    (atUsers : List String) : DingBody :=
  match msgType with
  | .text =>
    ⟨"text", content, none,
      if atUsers.length > 0 then some (atUsers, false) else none⟩
  | .markdown =>
    ⟨"markdown", content, some "Message",
      if atUsers.length > 0 then some (atUsers, false) else none⟩
  | _ => ⟨"text", content, none, none⟩

/-- `dingtalk.Client.SendMessage`: nil check, then a single POST of the
    built body to the configured webhook, whose outcome (transport, decode
    or non-zero `errcode` failures collapsed into one error message, `none`
    for success) is the oracle `attempt`.  Returns the Go error, the number
    of delivery attempts performed, and the sleeps performed. -/
def dingtalkSendMessage (msg : Option Message) (opts : Option SendOptions)
    (attempt : DingBody → Option String) : Option GoError × Nat × List Nat :=
  match msg, opts with
  | some m, some o =>
    ((attempt (dingtalkBody m.type m.content o.atUsers)).map .simple, 1, [])
  | _, _ => (some (.simple "message and options cannot be nil"), 0, [])

/-- C10: for non-nil message and options the DingTalk adapter performs
    exactly one delivery attempt regardless of `opts.Targets`, sleeps never,
    depends only on `AtUsers` among the options, and returns any failure
    directly, never as an aggregate `SendError`. -/
theorem dingtalk_sendMessage_single_attempt (msg : Message) (opts : SendOptions)
    (attempt : DingBody → Option String) :
    (dingtalkSendMessage (some msg) (some opts) attempt).2.1 = 1 ∧
    (dingtalkSendMessage (some msg) (some opts) attempt).2.2 = [] ∧
    (dingtalkSendMessage (some msg) (some opts) attempt).1 =
      (attempt (dingtalkBody msg.type msg.content opts.atUsers)).map .simple ∧
    (∀ opts' : SendOptions, opts'.atUsers = opts.atUsers →
      dingtalkSendMessage (some msg) (some opts') attempt =
        dingtalkSendMessage (some msg) (some opts) attempt) ∧
    (∀ e : SendError,
      (dingtalkSendMessage (some msg) (some opts) attempt).1 ≠
        some (.sendError e)) := by
  refine ⟨rfl, rfl, rfl, ?_, ?_⟩
  · intro opts' h
    simp [dingtalkSendMessage, h]
  · intro e
    cases h : attempt (dingtalkBody msg.type msg.content opts.atUsers) <;>
      simp [dingtalkSendMessage, h]

/-- Witness for C10: a concrete send with 5 targets still performs exactly
    one attempt and returns the webhook's error directly. -/
theorem dingtalk_sendMessage_single_attempt_witness :
    (dingtalkSendMessage (some msgW)
        (some ⟨[targetA, targetB, targetC, targetA, targetB], ["u1"]⟩)
        (fun _ => some "down")).2.1 = 1 ∧
    (dingtalkSendMessage (some msgW)
        (some ⟨[targetA, targetB, targetC, targetA, targetB], ["u1"]⟩)
        (fun _ => some "down")).1 = some (.simple "down") := by
  have h := dingtalk_sendMessage_single_attempt msgW
    ⟨[targetA, targetB, targetC, targetA, targetB], ["u1"]⟩ (fun _ => some "down")
  exact ⟨h.1, by rw [h.2.2.1]; rfl⟩

/-! ## Token manager (`lark.Client.getToken` / `refreshToken`;
`wechat.Client.getToken` / `refreshToken` are identical up to JSON field
names) -/

/-- Token state of a client: `c.token` and `c.tokenExpiry` (seconds on an
    absolute clock). -/
structure TokenState where
  token : String
  tokenExpiry : Int
deriving DecidableEq, Repr

/-- `refreshToken`: the whole HTTP exchange with the credential endpoint is
    the oracle `resp` — `.ok (tok, expire)` for a decodable reply with
    `code == 0` carrying the token and its ttl in seconds, `.error` for a
    transport, decode, or non-zero-code failure, each of which returns
    before the stored state is written.  On success the state becomes the
    new token with expiry `now + (expire - 300)` ("Refresh 5 min early"). -/
def refreshToken (now : Int) (resp : Except String (String × Int))
    (s : TokenState) : Except String TokenState :=
  match resp with
  | .error e => .error e
  | .ok (tok, expire) => .ok ⟨tok, now + (expire - 300)⟩

/-- `getToken`: return the cached token while `time.Now().Before(expiry)`,
    otherwise refresh once.  The middle component counts the refresh calls
    issued by this invocation. -/
def getToken (now : Int) (resp : Except String (String × Int))
    (s : TokenState) : Except String String × Nat × TokenState :=
  if now < s.tokenExpiry then
    (.ok s.token, 0, s)
  else
    match refreshToken now resp s with
    | .error e => (.error e, 1, s)
    | .ok s' => (.ok s'.token, 1, s')

/-- C2: before expiry the cached token is returned with no refresh call;
    at/after expiry exactly one refresh call is made; a successful refresh
    stores the new token with expiry `now + ttl - 300` seconds and returns
    it; a failed refresh is surfaced as an error, unretried, with the
    stored token and expiry unchanged. -/
theorem getToken_refresh_policy (now : Int)
    (resp : Except String (String × Int)) (s : TokenState) :
    (now < s.tokenExpiry → getToken now resp s = (.ok s.token, 0, s)) ∧
    (¬ now < s.tokenExpiry →
      (getToken now resp s).2.1 = 1 ∧
      (∀ tok expire, resp = .ok (tok, expire) →
        getToken now resp s =
          (.ok tok, 1, ⟨tok, now + (expire - 300)⟩)) ∧
      (∀ e, resp = .error e → getToken now resp s = (.error e, 1, s))) := by
  constructor
  · intro h
    simp [getToken, h]
  · intro h
    refine ⟨?_, ?_, ?_⟩
    · cases resp with
      | error e => simp [getToken, refreshToken, h]
      | ok p => simp [getToken, refreshToken, h]
    · intro tok expire hresp
      subst hresp
      simp [getToken, refreshToken, h]
    · intro e hresp
      subst hresp
      simp [getToken, refreshToken, h]

/-- Witness for C2 at concrete times: a fresh cache is served without
    refresh; an expired cache triggers one refresh storing
    `now + ttl - 300`; a failed refresh leaves the state untouched. -/
theorem getToken_refresh_policy_witness :
    ((50 : Int) < 100 ∧
      getToken 50 (.ok ("new", 7200)) ⟨"old", 100⟩ =
        (.ok "old", 0, ⟨"old", 100⟩)) ∧
    (¬ (200 : Int) < 100 ∧
      getToken 200 (.ok ("new", 7200)) ⟨"old", 100⟩ =
        (.ok "new", 1, ⟨"new", 200 + (7200 - 300)⟩)) ∧
    getToken 200 (.error "boom") ⟨"old", 100⟩ = (.error "boom", 1, ⟨"old", 100⟩) := by
  refine ⟨⟨by decide, ?_⟩, ⟨by decide, ?_⟩, ?_⟩
  · exact (getToken_refresh_policy 50 (.ok ("new", 7200)) ⟨"old", 100⟩).1 (by decide)
  · exact ((getToken_refresh_policy 200 (.ok ("new", 7200)) ⟨"old", 100⟩).2
      (by decide)).2.1 "new" 7200 rfl
  · exact ((getToken_refresh_policy 200 (.error "boom") ⟨"old", 100⟩).2
      (by decide)).2.2 "boom" rfl

/-! ## Adapter `Close` (C8)

`lark.Client.Close` and `wechat.Client.Close` share one body (closed-flag
check, optional `CloseIdleConnections`, token clearing);
`telegram.Client.Close` and `dingtalk.Client.Close` are the same without
the token clearing. -/

/-- The fields of a platform client observed by `Close`: the `closed` flag,
    `ownsHTTP`, whether `c.httpClient != nil`, and the cached token (always
    `""` for the token-less telegram/dingtalk clients). -/
structure ClientState where
  closed : Bool
  ownsHTTP : Bool
  httpPresent : Bool
  token : String
deriving DecidableEq, Repr

/-- Side effect recorded by `Close`. -/
inductive ClientEvent where
  | closeIdleConnections
deriving DecidableEq, Repr

/-- `lark.Client.Close` / `wechat.Client.Close`: no-op returning nil when
    already closed; otherwise set `closed`, close idle connections iff the
    client owns a non-nil HTTP client, clear the token, return nil. -/
def closeWithToken (c : ClientState) :
    Option String × ClientState × List ClientEvent :=
  if c.closed then
    (none, c, [])
  else
    (none, { c with closed := true, token := "" },
      if c.ownsHTTP && c.httpPresent then [.closeIdleConnections] else [])

/-- `telegram.Client.Close` / `dingtalk.Client.Close`: as above but with no
    token cache to clear. -/
def closeNoToken (c : ClientState) :
    Option String × ClientState × List ClientEvent :=
  if c.closed then
    (none, c, [])
  else
    (none, { c with closed := true },
      if c.ownsHTTP && c.httpPresent then [.closeIdleConnections] else [])

/-- C8: for every adapter, the first `Close` marks the client closed,
    clears any cached token, returns nil, and closes idle connections only
    when the client owns its HTTP client; every later `Close` observes the
    flag, does nothing and returns nil. -/
theorem client_close_idempotent (c : ClientState) (h : c.closed = false) :
    closeWithToken c = (none, { c with closed := true, token := "" },
      if c.ownsHTTP && c.httpPresent then [.closeIdleConnections] else []) ∧
    closeNoToken c = (none, { c with closed := true },
      if c.ownsHTTP && c.httpPresent then [.closeIdleConnections] else []) ∧
    (∀ d : ClientState, d.closed = true →
      closeWithToken d = (none, d, []) ∧ closeNoToken d = (none, d, [])) ∧
    closeWithToken (closeWithToken c).2.1 = (none, (closeWithToken c).2.1, []) ∧
    closeNoToken (closeNoToken c).2.1 = (none, (closeNoToken c).2.1, []) ∧
    (c.ownsHTTP = false →
      (closeWithToken c).2.2 = [] ∧ (closeNoToken c).2.2 = []) := by
  refine ⟨by simp [closeWithToken, h], by simp [closeNoToken, h], ?_, ?_, ?_, ?_⟩
  · intro d hd
    exact ⟨by simp [closeWithToken, hd], by simp [closeNoToken, hd]⟩
  · simp [closeWithToken, h]
  · simp [closeNoToken, h]
  · intro ho
    exact ⟨by simp [closeWithToken, h, ho], by simp [closeNoToken, h, ho]⟩

/-- Witness for C8 on a live pool-built client (shared transport, so no
    idle-connection closing even on the first call). -/
theorem client_close_idempotent_witness :
    (⟨false, false, true, "tok"⟩ : ClientState).closed = false ∧
    closeWithToken ⟨false, false, true, "tok"⟩ =
      (none, ⟨true, false, true, ""⟩, []) ∧
    closeWithToken (closeWithToken ⟨false, false, true, "tok"⟩).2.1 =
      (none, (closeWithToken ⟨false, false, true, "tok"⟩).2.1, []) := by
  have h := client_close_idempotent ⟨false, false, true, "tok"⟩ rfl
  exact ⟨rfl, by rw [h.1]; rfl, h.2.2.2.1⟩

/-! ## The client pool (`pool.go`)

A Go `map[string]V` is embedded as an association list without duplicate
keys; `mapLookup`, `mapInsert` and `mapErase` are `m[k]`, `m[k] = v` and
`delete(m, k)`.  Map iteration (`for ... := range m`) follows list order —
Go leaves the order unspecified, the embedding fixes one. -/

/-- `m[k]`. -/
def mapLookup {β : Type _} : List (String × β) → String → Option β
  | [], _ => none
  | p :: rest, k => if p.1 = k then some p.2 else mapLookup rest k

/-- `m[k] = v`. -/
def mapInsert {β : Type _} : List (String × β) → String → β → List (String × β)
  | [], k, v => [(k, v)]
  | p :: rest, k, v =>
    if p.1 = k then (k, v) :: rest else p :: mapInsert rest k v

/-- `delete(m, k)`. -/
def mapErase {β : Type _} : List (String × β) → String → List (String × β)
  | [], _ => []
  | p :: rest, k => if p.1 = k then mapErase rest k else p :: mapErase rest k

/-- Key list of a map. -/
def keys {β : Type _} (m : List (String × β)) : List String :=
  m.map Prod.fst

@[simp] theorem keys_nil {β : Type _} : keys ([] : List (String × β)) = [] := rfl

@[simp] theorem keys_cons {β : Type _} (p : String × β) (m : List (String × β)) :
    keys (p :: m) = p.1 :: keys m := rfl

theorem mapLookup_insert_self {β : Type _} (m : List (String × β))
    (k : String) (v : β) : mapLookup (mapInsert m k v) k = some v := by
  induction m with
  | nil => simp [mapInsert, mapLookup]
  | cons p rest ih =>
    by_cases h : p.1 = k
    · simp [mapInsert, mapLookup, h]
    · simp [mapInsert, mapLookup, h, ih]

theorem mapLookup_eq_none_iff {β : Type _} (m : List (String × β))
    (k : String) : mapLookup m k = none ↔ k ∉ keys m := by
  induction m with
  | nil => simp [mapLookup]
  | cons p rest ih =>
    by_cases h : p.1 = k
    · simp [mapLookup, h]
    · simp [mapLookup, h, ih, Ne.symm h]

theorem mem_keys_of_mapLookup_eq_some {β : Type _} {m : List (String × β)}
    {k : String} {v : β} (h : mapLookup m k = some v) : k ∈ keys m := by
  by_contra hk
  rw [← mapLookup_eq_none_iff] at hk
  rw [hk] at h
  exact Option.noConfusion h

theorem mem_of_mapLookup_eq_some {β : Type _} {m : List (String × β)}
    {k : String} {v : β} (h : mapLookup m k = some v) : (k, v) ∈ m := by
  induction m with
  | nil => simp [mapLookup] at h
  | cons p rest ih =>
    by_cases hp : p.1 = k
    · rw [mapLookup, if_pos hp] at h
      obtain ⟨k1, v1⟩ := p
      obtain rfl : v1 = v := Option.some.inj h
      obtain rfl : k1 = k := hp
      exact List.mem_cons_self _ _
    · rw [mapLookup, if_neg hp] at h
      exact List.mem_cons_of_mem _ (ih h)

theorem mapLookup_eq_some_of_mem_nodup {β : Type _} {m : List (String × β)}
    {k : String} {v : β} (hnd : (keys m).Nodup) (h : (k, v) ∈ m) :
    mapLookup m k = some v := by
  induction m with
  | nil => simp at h
  | cons p rest ih =>
    simp only [keys_cons, List.nodup_cons] at hnd
    rcases List.mem_cons.mp h with h1 | h1
    · rw [← h1]
      simp [mapLookup]
    · have hne : p.1 ≠ k := by
        intro hpk
        exact hnd.1 (hpk ▸ (List.mem_map_of_mem Prod.fst h1))
      rw [mapLookup, if_neg hne]
      exact ih hnd.2 h1

theorem keys_mapInsert_of_mem {β : Type _} (m : List (String × β))
    (k : String) (v : β) (h : k ∈ keys m) :
    keys (mapInsert m k v) = keys m := by
  induction m with
  | nil => simp at h
  | cons p rest ih =>
    by_cases hp : p.1 = k
    · simp [mapInsert, hp]
    · have h' : k ∈ keys rest := by
        rcases List.mem_cons.mp (by simpa using h) with h1 | h1
        · exact absurd h1.symm hp
        · exact h1
      simp [mapInsert, hp, ih h']

theorem keys_mapInsert_of_not_mem {β : Type _} (m : List (String × β))
    (k : String) (v : β) (h : k ∉ keys m) :
    keys (mapInsert m k v) = keys m ++ [k] := by
  induction m with
  | nil => simp [mapInsert]
  | cons p rest ih =>
    have hp : p.1 ≠ k := by
      intro hpk
      exact h (by simp [hpk])
    have h' : k ∉ keys rest := by
      intro hk
      exact h (by simp [hk])
    simp [mapInsert, hp, ih h']

theorem keys_mapErase {β : Type _} (m : List (String × β)) (k : String) :
    keys (mapErase m k) = (keys m).filter (fun x => x ≠ k) := by
  induction m with
  | nil => simp [mapErase]
  | cons p rest ih =>
    by_cases hp : p.1 = k
    · simp [mapErase, hp, ih]
    · simp [mapErase, hp, ih]

theorem mapErase_eq_filter {β : Type _} (m : List (String × β)) (k : String) :
    mapErase m k = m.filter (fun p => p.1 ≠ k) := by
  induction m with
  | nil => simp [mapErase]
  | cons p rest ih =>
    by_cases hp : p.1 = k
    · simp [mapErase, hp, ih]
    · simp [mapErase, hp, ih]

theorem mapLookup_mapErase_ne {β : Type _} (m : List (String × β))
    {k k' : String} (h : k ≠ k') :
    mapLookup (mapErase m k') k = mapLookup m k := by
  induction m with
  | nil => rfl
  | cons p rest ih =>
    by_cases hp : p.1 = k'
    · have hpk : p.1 ≠ k := by rw [hp]; exact Ne.symm h
      rw [mapErase, if_pos hp, ih, mapLookup, if_neg hpk]
    · by_cases hk : p.1 = k
      · rw [mapErase, if_neg hp, mapLookup, if_pos hk, mapLookup, if_pos hk]
      · rw [mapErase, if_neg hp, mapLookup, if_neg hk, mapLookup, if_neg hk, ih]

theorem mapLookup_mapErase_self {β : Type _} (m : List (String × β))
    (k : String) : mapLookup (mapErase m k) k = none := by
  induction m with
  | nil => rfl
  | cons p rest ih =>
    by_cases hp : p.1 = k
    · simp [mapErase, hp, ih]
    · simp [mapErase, mapLookup, hp, ih]

/-! ### Pool state and operations -/

/-- `ClientPool`: the `clients` and `lastUsed` maps and `maxIdle`
    (seconds).  The adapter type `A` stands for `types.IMParrot` interface
    values; since `A` is abstract, equality of stored values is instance
    identity. -/
structure PoolState (A : Type) where
  clients : List (String × A)
  lastUsed : List (String × Int)
  maxIdle : Int
deriving DecidableEq, Repr

/-- `ClientPool.Size`. -/
def size {A : Type} (s : PoolState A) : Nat :=
  s.clients.length

/-- A `types.Config` as the pool consults it: `Validate()` (an error or
    nil) and `GetPlatform()`. -/
structure GoConfig where
  validateErr : Option String
  platform : String
deriving DecidableEq, Repr

/-- `ClientPool.createClient`: validate the config, check its platform tag,
    then build the adapter.  The constructor `createClientWithHTTP` (factory
    dispatch bound to the shared transport) is abstracted by its outcome
    `mk`. -/
def createClient {A : Type} (mk : Except String A) (platform : String)
    (cfg : GoConfig) : Except String A :=
  match cfg.validateErr with
  | some e => .error ("invalid config: " ++ e)
  | none =>
    if cfg.platform ≠ platform then
      .error ("config platform " ++ cfg.platform ++
        " does not match requested platform " ++ platform)
    else
      mk

/-- `ClientPool.GetOrCreate`: fast path returns the cached adapter and
    stamps `lastUsed`; otherwise `createClient`, and on success insert into
    both maps (construction failure inserts nothing). -/
def getOrCreate {A : Type} (s : PoolState A) (now : Int) (key platform : String)
    (cfg : GoConfig) (mk : Except String A) : Except String A × PoolState A :=
  match mapLookup s.clients key with
  | some c => (.ok c, { s with lastUsed := mapInsert s.lastUsed key now })
  | none =>
    match createClient mk platform cfg with
    | .error e => (.error e, s)
    | .ok c =>
      (.ok c, { s with clients := mapInsert s.clients key c,
                       lastUsed := mapInsert s.lastUsed key now })

/-- `ClientPool.Get`: non-creating lookup, stamping `lastUsed` on a hit. -/
def poolGet {A : Type} (s : PoolState A) (now : Int) (key : String) :
    Option A × PoolState A :=
  match mapLookup s.clients key with
  | some c => (some c, { s with lastUsed := mapInsert s.lastUsed key now })
  | none => (none, s)

/-- `ClientPool.Remove`: delete from both maps and `Close()` the removed
    adapter (`closeFn` abstracts each adapter's `Close`); absent key is a
    nil-returning no-op. -/
def remove {A : Type} (closeFn : A → Option String) (s : PoolState A)
    (key : String) : Option String × PoolState A :=
  match mapLookup s.clients key with
  | none => (none, s)
  | some c =>
    (closeFn c, { s with clients := mapErase s.clients key,
                         lastUsed := mapErase s.lastUsed key })

/-- C3: a second `GetOrCreate` with the same key returns the very adapter
    the first call returned — whatever platform, config or constructor the
    second call is given — and the pool size does not change. -/
theorem getOrCreate_same_key_idempotent {A : Type} (s : PoolState A)
    (now now' : Int) (key platform platform' : String) (cfg cfg' : GoConfig)
    (mk mk' : Except String A) (c : A)
    (h : (getOrCreate s now key platform cfg mk).1 = .ok c) :
    (getOrCreate (getOrCreate s now key platform cfg mk).2 now' key platform'
        cfg' mk').1 = .ok c ∧
    size (getOrCreate (getOrCreate s now key platform cfg mk).2 now' key
        platform' cfg' mk').2 =
      size (getOrCreate s now key platform cfg mk).2 := by
  cases hl : mapLookup s.clients key with
  | some c0 =>
    have h1 : getOrCreate s now key platform cfg mk =
        (.ok c0, { s with lastUsed := mapInsert s.lastUsed key now }) := by
      simp only [getOrCreate, hl]
    have hc : c0 = c := by
      rw [h1] at h
      exact Except.ok.inj h
    subst hc
    rw [h1]
    simp [getOrCreate, hl, size]
  | none =>
    cases hcr : createClient mk platform cfg with
    | error e =>
      have h1 : getOrCreate s now key platform cfg mk = (.error e, s) := by
        simp only [getOrCreate, hl, hcr]
      rw [h1] at h
      exact Except.noConfusion h
    | ok c0 =>
      have h1 : getOrCreate s now key platform cfg mk =
          (.ok c0, { s with clients := mapInsert s.clients key c0,
                            lastUsed := mapInsert s.lastUsed key now }) := by
        simp only [getOrCreate, hl, hcr]
      have hc : c0 = c := by
        rw [h1] at h
        exact Except.ok.inj h
      subst hc
      rw [h1]
      simp [getOrCreate, mapLookup_insert_self, size]

/-- Witness for C3: create under key `"k"`, then fetch it again with a
    different platform and an always-failing constructor. -/
theorem getOrCreate_same_key_idempotent_witness :
    (getOrCreate (A := Nat) ⟨[], [], 1800⟩ 10 "k" "lark" ⟨none, "lark"⟩
        (.ok 42)).1 = .ok 42 ∧
    (getOrCreate (getOrCreate (A := Nat) ⟨[], [], 1800⟩ 10 "k" "lark"
        ⟨none, "lark"⟩ (.ok 42)).2 20 "k" "telegram" ⟨some "bad", "x"⟩
        (.error "boom")).1 = .ok 42 ∧
    size (getOrCreate (getOrCreate (A := Nat) ⟨[], [], 1800⟩ 10 "k" "lark"
        ⟨none, "lark"⟩ (.ok 42)).2 20 "k" "telegram" ⟨some "bad", "x"⟩
        (.error "boom")).2 =
      size (getOrCreate (A := Nat) ⟨[], [], 1800⟩ 10 "k" "lark"
        ⟨none, "lark"⟩ (.ok 42)).2 := by
  have h := getOrCreate_same_key_idempotent (A := Nat) ⟨[], [], 1800⟩ 10 20
    "k" "lark" "telegram" ⟨none, "lark"⟩ ⟨some "bad", "x"⟩ (.ok 42)
    (.error "boom") 42 rfl
  exact ⟨rfl, h.1, h.2⟩

/-- C6: for an absent key, a failing `Validate()`, a platform tag different
    from the requested one, or a failing constructor make `GetOrCreate`
    return an error and leave the pool state (both maps, hence `Size`)
    untouched. -/
theorem getOrCreate_failure_no_insert {A : Type} (s : PoolState A) (now : Int)
    (key platform : String) (cfg : GoConfig) (mk : Except String A)
    (habs : mapLookup s.clients key = none)
    (hbad : cfg.validateErr ≠ none ∨ cfg.platform ≠ platform ∨
      ∃ e, mk = .error e) :
    (∃ e, (getOrCreate s now key platform cfg mk).1 = .error e) ∧
    (getOrCreate s now key platform cfg mk).2 = s ∧
    size (getOrCreate s now key platform cfg mk).2 = size s := by
  have hcr : ∃ e, createClient mk platform cfg = .error e := by
    cases hv : cfg.validateErr with
    | some e => exact ⟨"invalid config: " ++ e, by simp only [createClient, hv]⟩
    | none =>
      rcases hbad with hbad | hbad | hbad
      · exact absurd hv hbad
      · exact ⟨"config platform " ++ cfg.platform ++
          " does not match requested platform " ++ platform,
          by simp only [createClient, hv, if_pos hbad]⟩
      · obtain ⟨e, he⟩ := hbad
        by_cases hp : cfg.platform = platform
        · exact ⟨e, by simp [createClient, hv, hp, he]⟩
        · exact ⟨"config platform " ++ cfg.platform ++
            " does not match requested platform " ++ platform,
            by simp only [createClient, hv, if_pos hp]⟩
  obtain ⟨e, he⟩ := hcr
  have h1 : getOrCreate s now key platform cfg mk = (.error e, s) := by
    simp only [getOrCreate, habs, he]
  rw [h1]
  exact ⟨⟨e, rfl⟩, rfl, rfl⟩

/-- Witness for C6: a platform-mismatched config on an empty pool. -/
theorem getOrCreate_failure_no_insert_witness :
    mapLookup (([] : List (String × Nat))) "k" = none ∧
    (∃ e, (getOrCreate (A := Nat) ⟨[], [], 1800⟩ 5 "k" "lark"
      ⟨none, "telegram"⟩ (.ok 7)).1 = .error e) ∧
    (getOrCreate (A := Nat) ⟨[], [], 1800⟩ 5 "k" "lark" ⟨none, "telegram"⟩
      (.ok 7)).2 = ⟨[], [], 1800⟩ := by
  have h := getOrCreate_failure_no_insert (A := Nat) ⟨[], [], 1800⟩ 5 "k"
    "lark" ⟨none, "telegram"⟩ (.ok 7) rfl (Or.inr (Or.inl (by decide)))
  exact ⟨rfl, h.1, h.2.1⟩

/-- C9: `Remove` of a present key erases it from both maps and returns the
    removed adapter's `Close()` result; `Remove` of an absent key returns
    nil and changes nothing. -/
theorem remove_correct {A : Type} (closeFn : A → Option String)
    (s : PoolState A) (key : String) :
    (∀ c, mapLookup s.clients key = some c →
      remove closeFn s key =
        (closeFn c, ⟨mapErase s.clients key, mapErase s.lastUsed key,
          s.maxIdle⟩) ∧
      mapLookup (remove closeFn s key).2.clients key = none ∧
      mapLookup (remove closeFn s key).2.lastUsed key = none) ∧
    (mapLookup s.clients key = none →
      remove closeFn s key = (none, s) ∧
      size (remove closeFn s key).2 = size s) := by
  constructor
  · intro c hc
    refine ⟨by simp only [remove, hc], ?_, ?_⟩ <;>
      simp [remove, hc, mapLookup_mapErase_self]
  · intro hn
    exact ⟨by simp only [remove, hn], by simp only [remove, hn]⟩

/-- Witness for C9: both branches on a one-entry pool. -/
theorem remove_correct_witness :
    (mapLookup ([("k", 42)] : List (String × Nat)) "k" = some 42 ∧
      remove (fun n => some (toString n)) (⟨[("k", 42)], [("k", 3)], 60⟩ :
        PoolState Nat) "k" = (some "42", ⟨[], [], 60⟩)) ∧
    (mapLookup ([("k", 42)] : List (String × Nat)) "absent" = none ∧
      remove (fun n => some (toString n)) (⟨[("k", 42)], [("k", 3)], 60⟩ :
        PoolState Nat) "absent" =
        (none, ⟨[("k", 42)], [("k", 3)], 60⟩)) := by
  have h := remove_correct (fun n => some (toString n))
    (⟨[("k", 42)], [("k", 3)], 60⟩ : PoolState Nat) "k"
  have h' := remove_correct (fun n => some (toString n))
    (⟨[("k", 42)], [("k", 3)], 60⟩ : PoolState Nat) "absent"
  refine ⟨⟨by decide, ?_⟩, ⟨by decide, (h'.2 (by decide)).1⟩⟩
  rw [(h.1 42 (by decide)).1]
  rfl

/-! ### Pool shutdown (`ClientPool.Close`) and idle eviction
(`ClientPool.cleanupIdle`) -/

/-- Side effects of pool shutdown/eviction, in execution order:
    `close(p.closeChan)`, `p.wg.Wait()`, each adapter `Close` (with its
    result), and `p.httpPool.CloseIdleConnections()`. -/
inductive PoolEvent where
  | stopLoop
  | waitLoop
  | closeAdapter (key : String) (err : Option String)
  | closeTransport
deriving DecidableEq, Repr

/-- Invariant: the `clients` and `lastUsed` maps hold exactly the same
    keys (they are only ever populated and depopulated together). -/
def keysEq {A : Type} (s : PoolState A) : Prop :=
  keys s.clients = keys s.lastUsed

/-- One iteration of the `for _, key := range toRemove` loop of
    `cleanupIdle`: if the key still has a client, `Close()` it (result
    recorded, error ignored) and delete it from both maps. -/
def cleanupStep {A : Type} (closeFn : A → Option String)
    (acc : PoolState A × List PoolEvent) (key : String) :
    PoolState A × List PoolEvent :=
  match mapLookup acc.1.clients key with
  | some c =>
    ({ acc.1 with clients := mapErase acc.1.clients key,
                  lastUsed := mapErase acc.1.lastUsed key },
      acc.2 ++ [.closeAdapter key (closeFn c)])
  | none => acc

/-- The `toRemove` list of `cleanupIdle`: keys of `lastUsed` entries with
    `now.Sub(lastUsed) > p.maxIdle`. -/
def staleKeys {A : Type} (s : PoolState A) (now : Int) : List String :=
  (s.lastUsed.filter (fun kt => now - kt.2 > s.maxIdle)).map Prod.fst

/-- `ClientPool.cleanupIdle` at clock value `now`, returning the new state
    and the eviction-time `Close` events. -/
def cleanupIdle {A : Type} (closeFn : A → Option String) (now : Int)
    (s : PoolState A) : PoolState A × List PoolEvent :=
  (staleKeys s now).foldl (cleanupStep closeFn) (s, [])

/-- One iteration of the `for key, client := range p.clients` loop of
    `ClientPool.Close`: `Close()` the client, keep the error only when
    non-nil (overwriting the previous `lastErr`), delete from both maps. -/
def closeStep {A : Type} (closeFn : A → Option String)
    (acc : Option String × PoolState A × List PoolEvent) (kc : String × A) :
    Option String × PoolState A × List PoolEvent :=
  ((match closeFn kc.2 with | some e => some e | none => acc.1),
    { acc.2.1 with clients := mapErase acc.2.1.clients kc.1,
                   lastUsed := mapErase acc.2.1.lastUsed kc.1 },
    acc.2.2 ++ [.closeAdapter kc.1 (closeFn kc.2)])

/-- `ClientPool.Close`: stop and join the cleanup goroutine, close and
    remove every client keeping the last non-nil close error, then close
    the shared transport's idle connections. -/
def poolClose {A : Type} (closeFn : A → Option String) (s : PoolState A) :
    Option String × PoolState A × List PoolEvent :=
  let r := s.clients.foldl (closeStep closeFn)
    (none, s, [PoolEvent.stopLoop, PoolEvent.waitLoop])
  (r.1, r.2.1, r.2.2 ++ [PoolEvent.closeTransport])

/-! #### Helper lemmas about the two fold loops -/

theorem keys_filter {β : Type _} (m : List (String × β)) (q : String → Bool) :
    keys (m.filter (fun p => q p.1)) = (keys m).filter q := by
  induction m with
  | nil => rfl
  | cons p rest ih =>
    by_cases h : q p.1 = true
    · simp [h, ih]
    · simp only [Bool.not_eq_true] at h
      simp [h, ih]

theorem keys_filter_notmem {β : Type _} (m : List (String × β))
    (ks : List String) :
    keys (m.filter (fun p => decide (p.1 ∉ ks))) =
      (keys m).filter (fun x => decide (x ∉ ks)) :=
  keys_filter m (fun x => decide (x ∉ ks))

theorem mapErase_filter_keyset {β : Type _} (m : List (String × β))
    (k : String) (ks : List String) :
    (mapErase m k).filter (fun p => decide (p.1 ∉ ks)) =
      m.filter (fun p => decide (p.1 ∉ k :: ks)) := by
  rw [mapErase_eq_filter, List.filter_filter]
  apply List.filter_congr
  intro p _
  by_cases hp : p.1 = k
  · simp [hp]
  · by_cases hm : p.1 ∈ ks <;> simp [hp, hm]

theorem keysEq_erase {A : Type} {s : PoolState A} (h : keysEq s) (k : String) :
    keysEq (⟨mapErase s.clients k, mapErase s.lastUsed k, s.maxIdle⟩ :
      PoolState A) := by
  show keys (mapErase s.clients k) = keys (mapErase s.lastUsed k)
  rw [keys_mapErase, keys_mapErase, h]

theorem mapLookup_isSome_of_mem_keys {β : Type _} {m : List (String × β)}
    {k : String} (h : k ∈ keys m) : (mapLookup m k).isSome := by
  cases hl : mapLookup m k with
  | none => exact absurd ((mapLookup_eq_none_iff m k).mp hl) (not_not_intro h)
  | some v => rfl

theorem length_filterMap_of_isSome {α β : Type _} (F : α → Option β) :
    ∀ l : List α, (∀ a ∈ l, (F a).isSome) → (l.filterMap F).length = l.length := by
  intro l
  induction l with
  | nil => intro _; rfl
  | cons a rest ih =>
    intro h
    cases hf : F a with
    | none =>
      have := h a (List.mem_cons_self a rest)
      rw [hf] at this
      exact absurd this (by simp)
    | some b =>
      simp only [List.filterMap_cons, hf, List.length_cons]
      rw [ih (fun x hx => h x (List.mem_cons_of_mem a hx))]

/-- The `Close` loop keeps the error of the last failing close. -/
theorem foldl_lastErr (l : List (Option String)) :
    ∀ acc : Option String,
      l.foldl (fun a o => match o with | some e => some e | none => a) acc =
        match (l.filterMap id).getLast? with
        | some e => some e
        | none => acc := by
  induction l with
  | nil => intro acc; rfl
  | cons o rest ih =>
    intro acc
    cases o with
    | none =>
      rw [List.foldl_cons, ih]
      simp [List.filterMap_cons]
    | some e =>
      rw [List.foldl_cons, ih]
      cases h : rest.filterMap id with
      | nil => simp [List.filterMap_cons, h]
      | cons x xs =>
        cases h2 : (x :: xs).getLast? with
        | none => simp at h2
        | some y => simp [List.filterMap_cons, h, h2]

/-- Full characterisation of the `ClientPool.Close` loop. -/
theorem closeFold_char {A : Type} (closeFn : A → Option String) :
    ∀ (l : List (String × A)) (acc : Option String × PoolState A × List PoolEvent),
      l.foldl (closeStep closeFn) acc =
        ((l.map (fun kc => closeFn kc.2)).foldl
            (fun a o => match o with | some e => some e | none => a) acc.1,
          ⟨acc.2.1.clients.filter (fun p => decide (p.1 ∉ keys l)),
            acc.2.1.lastUsed.filter (fun p => decide (p.1 ∉ keys l)),
            acc.2.1.maxIdle⟩,
          acc.2.2 ++ l.map (fun kc => PoolEvent.closeAdapter kc.1 (closeFn kc.2))) := by
  intro l
  induction l with
  | nil =>
    intro acc
    simp
  | cons kc rest ih =>
    intro acc
    rw [List.foldl_cons, ih]
    simp only [closeStep, List.map_cons, List.foldl_cons, keys_cons,
      mapErase_filter_keyset, List.append_assoc, List.singleton_append]

theorem option_match_id (x : Option String) :
    (match x with | some e => some e | none => none) = x := by
  cases x <;> rfl

/-- Full characterisation of the `cleanupIdle` removal loop, for a
    duplicate-free key list and agreeing maps. -/
theorem cleanupFold_char {A : Type} (closeFn : A → Option String) :
    ∀ (ks : List String) (st : PoolState A) (evs : List PoolEvent),
      ks.Nodup → keysEq st →
      ks.foldl (cleanupStep closeFn) (st, evs) =
        (⟨st.clients.filter (fun p => decide (p.1 ∉ ks)),
          st.lastUsed.filter (fun p => decide (p.1 ∉ ks)),
          st.maxIdle⟩,
          evs ++ ks.filterMap (fun k => (mapLookup st.clients k).map
            (fun c => PoolEvent.closeAdapter k (closeFn c)))) := by
  intro ks
  induction ks with
  | nil =>
    intro st evs _ _
    simp
  | cons k ks ih =>
    intro st evs hnd hinv
    obtain ⟨hk, hnd'⟩ := List.nodup_cons.mp hnd
    rw [List.foldl_cons]
    cases hc : mapLookup st.clients k with
    | none =>
      have hstep : cleanupStep closeFn (st, evs) k = (st, evs) := by
        simp [cleanupStep, hc]
      rw [hstep, ih st evs hnd' hinv]
      have hkc : k ∉ keys st.clients := (mapLookup_eq_none_iff _ _).mp hc
      have hkl : k ∉ keys st.lastUsed := by
        rw [← hinv]; exact hkc
      have h1 : st.clients.filter (fun p => decide (p.1 ∉ ks)) =
          st.clients.filter (fun p => decide (p.1 ∉ k :: ks)) := by
        apply List.filter_congr
        intro p hp
        have hne : p.1 ≠ k := fun he => hkc (he ▸ List.mem_map_of_mem Prod.fst hp)
        simp [List.mem_cons, hne]
      have h2 : st.lastUsed.filter (fun p => decide (p.1 ∉ ks)) =
          st.lastUsed.filter (fun p => decide (p.1 ∉ k :: ks)) := by
        apply List.filter_congr
        intro p hp
        have hne : p.1 ≠ k := fun he => hkl (he ▸ List.mem_map_of_mem Prod.fst hp)
        simp [List.mem_cons, hne]
      rw [h1, h2]
      simp [List.filterMap_cons, hc]
    | some c =>
      have hstep : cleanupStep closeFn (st, evs) k =
          (⟨mapErase st.clients k, mapErase st.lastUsed k, st.maxIdle⟩,
            evs ++ [PoolEvent.closeAdapter k (closeFn c)]) := by
        simp [cleanupStep, hc]
      rw [hstep, ih _ _ hnd' (keysEq_erase hinv k)]
      have hevents : ks.filterMap (fun k' =>
          (mapLookup (mapErase st.clients k) k').map
            (fun c' => PoolEvent.closeAdapter k' (closeFn c'))) =
          ks.filterMap (fun k' => (mapLookup st.clients k').map
            (fun c' => PoolEvent.closeAdapter k' (closeFn c'))) := by
        apply List.filterMap_congr
        intro k' hk'
        have hne : k' ≠ k := fun he => hk (he ▸ hk')
        rw [mapLookup_mapErase_ne _ hne]
      simp only [mapErase_filter_keyset, hevents, List.filterMap_cons, hc,
        Option.map_some', List.append_assoc, List.singleton_append]

/-- `now.Sub(lastUsed[k]) > p.maxIdle`, read from the original state. -/
def isStale {A : Type} (s : PoolState A) (now : Int) (k : String) : Bool :=
  match mapLookup s.lastUsed k with
  | some t => decide (now - t > s.maxIdle)
  | none => false

theorem mem_staleKeys_iff {A : Type} {s : PoolState A} {now : Int}
    (hnd : (keys s.lastUsed).Nodup) (k : String) :
    k ∈ staleKeys s now ↔ isStale s now k = true := by
  constructor
  · intro h
    obtain ⟨kt, hkt, hfst⟩ := List.mem_map.mp h
    obtain ⟨hmem, hq⟩ := List.mem_filter.mp hkt
    have hl : mapLookup s.lastUsed k = some kt.2 := by
      apply mapLookup_eq_some_of_mem_nodup hnd
      rw [← hfst]
      exact hmem
    unfold isStale
    rw [hl]
    simpa using hq
  · intro h
    unfold isStale at h
    cases hl : mapLookup s.lastUsed k with
    | none => rw [hl] at h; exact absurd h (by simp)
    | some t =>
      rw [hl] at h
      have hmem : (k, t) ∈ s.lastUsed := mem_of_mapLookup_eq_some hl
      exact List.mem_map.mpr ⟨(k, t), List.mem_filter.mpr ⟨hmem, h⟩, rfl⟩

theorem staleKeys_nodup {A : Type} {s : PoolState A} (now : Int)
    (hnd : (keys s.lastUsed).Nodup) : (staleKeys s now).Nodup :=
  List.Nodup.sublist
    (List.Sublist.map Prod.fst (List.filter_sublist s.lastUsed)) hnd

/-- C4: `pool.Close()` first signals the eviction loop and joins it, then
    closes each remaining adapter exactly once (in map order) removing it
    from both maps, then closes the shared transport; afterwards the pool
    is empty (`Size() = 0`) and the returned error is the last failing
    adapter-close error (nil when none failed). -/
theorem poolClose_correct {A : Type} (closeFn : A → Option String)
    (s : PoolState A) (hinv : keysEq s) :
    (poolClose closeFn s).2.1.clients = [] ∧
    (poolClose closeFn s).2.1.lastUsed = [] ∧
    size (poolClose closeFn s).2.1 = 0 ∧
    (poolClose closeFn s).1 =
      (s.clients.filterMap (fun kc => closeFn kc.2)).getLast? ∧
    (poolClose closeFn s).2.2 =
      [PoolEvent.stopLoop, PoolEvent.waitLoop] ++
        s.clients.map (fun kc => PoolEvent.closeAdapter kc.1 (closeFn kc.2)) ++
        [PoolEvent.closeTransport] := by
  have hch := closeFold_char closeFn s.clients
    (none, s, [PoolEvent.stopLoop, PoolEvent.waitLoop])
  have hclients : s.clients.filter (fun p => decide (p.1 ∉ keys s.clients)) = [] := by
    rw [List.filter_eq_nil_iff]
    intro p hp
    simp only [decide_eq_true_eq, Decidable.not_not]
    exact List.mem_map_of_mem Prod.fst hp
  have hlu : s.lastUsed.filter (fun p => decide (p.1 ∉ keys s.clients)) = [] := by
    rw [List.filter_eq_nil_iff]
    intro p hp
    have hm : p.1 ∈ keys s.lastUsed := List.mem_map_of_mem Prod.fst hp
    rw [← hinv] at hm
    simp [hm]
  have herr : ((s.clients.map (fun kc => closeFn kc.2)).foldl
      (fun a o => match o with | some e => some e | none => a) none) =
      (s.clients.filterMap (fun kc => closeFn kc.2)).getLast? := by
    rw [foldl_lastErr, List.filterMap_map]
    exact option_match_id _
  have hpc : poolClose closeFn s =
      ((s.clients.map (fun kc => closeFn kc.2)).foldl
          (fun a o => match o with | some e => some e | none => a) none,
        (⟨s.clients.filter (fun p => decide (p.1 ∉ keys s.clients)),
          s.lastUsed.filter (fun p => decide (p.1 ∉ keys s.clients)),
          s.maxIdle⟩ : PoolState A),
        ([PoolEvent.stopLoop, PoolEvent.waitLoop] ++
          s.clients.map (fun kc => PoolEvent.closeAdapter kc.1 (closeFn kc.2))) ++
          [PoolEvent.closeTransport]) := by
    simp only [poolClose]
    rw [hch]
  rw [hpc]
  refine ⟨hclients, hlu, ?_, herr, rfl⟩
  show (s.clients.filter (fun p => decide (p.1 ∉ keys s.clients))).length = 0
  rw [hclients]
  rfl

/-- Witness for C4: three adapters, two failing closes — the pool empties
    and the reported error is the last failure. -/
theorem poolClose_correct_witness :
    keysEq (⟨[("a", 1), ("b", 2), ("c", 3)], [("a", 5), ("b", 6), ("c", 7)],
      1800⟩ : PoolState Nat) ∧
    (poolClose (fun n => if n = 2 then some "e2" else
        if n = 3 then some "e3" else none)
      (⟨[("a", 1), ("b", 2), ("c", 3)], [("a", 5), ("b", 6), ("c", 7)],
        1800⟩ : PoolState Nat)).1 = some "e3" ∧
    size (poolClose (fun n => if n = 2 then some "e2" else
        if n = 3 then some "e3" else none)
      (⟨[("a", 1), ("b", 2), ("c", 3)], [("a", 5), ("b", 6), ("c", 7)],
        1800⟩ : PoolState Nat)).2.1 = 0 := by
  have h := poolClose_correct
    (fun n => if n = 2 then some "e2" else if n = 3 then some "e3" else none)
    (⟨[("a", 1), ("b", 2), ("c", 3)], [("a", 5), ("b", 6), ("c", 7)],
      1800⟩ : PoolState Nat) rfl
  refine ⟨rfl, ?_, h.2.2.1⟩
  rw [h.2.2.2.1]
  decide

/-- C5: at a cleanup tick, every entry idle for more than `maxIdle` is
    removed from both maps with its adapter closed exactly once, in map
    order; `Close` failures do not influence the resulting state (they are
    swallowed and eviction continues); every entry used within `maxIdle`
    survives. -/
theorem cleanupIdle_correct {A : Type} (closeFn : A → Option String)
    (now : Int) (s : PoolState A) (hinv : keysEq s)
    (hnd : (keys s.lastUsed).Nodup) :
    (cleanupIdle closeFn now s).1.clients =
      s.clients.filter (fun p => !(isStale s now p.1)) ∧
    (cleanupIdle closeFn now s).1.lastUsed =
      s.lastUsed.filter (fun p => !(decide (now - p.2 > s.maxIdle))) ∧
    (cleanupIdle closeFn now s).2 =
      (s.lastUsed.filter (fun kt => decide (now - kt.2 > s.maxIdle))).filterMap
        (fun kt => (mapLookup s.clients kt.1).map
          (fun c => PoolEvent.closeAdapter kt.1 (closeFn c))) ∧
    (cleanupIdle closeFn now s).2.length =
      (s.lastUsed.filter (fun kt => decide (now - kt.2 > s.maxIdle))).length ∧
    (∀ closeFn' : A → Option String,
      (cleanupIdle closeFn' now s).1 = (cleanupIdle closeFn now s).1) := by
  have hndSK := staleKeys_nodup (s := s) now hnd
  have hch := cleanupFold_char closeFn (staleKeys s now) s [] hndSK hinv
  have hpt : ∀ x : String, decide (x ∉ staleKeys s now) = !(isStale s now x) := by
    intro x
    by_cases hx : x ∈ staleKeys s now
    · simp [hx, (mem_staleKeys_iff hnd x).mp hx]
    · have hfalse : isStale s now x = false := by
        cases hb : isStale s now x
        · rfl
        · exact absurd ((mem_staleKeys_iff hnd x).mpr hb) hx
      simp [hx, hfalse]
  have hclients : (cleanupIdle closeFn now s).1.clients =
      s.clients.filter (fun p => !(isStale s now p.1)) := by
    show ((staleKeys s now).foldl (cleanupStep closeFn) (s, [])).1.clients = _
    rw [hch]
    exact List.filter_congr (fun p _ => hpt p.1)
  have hlastUsed : (cleanupIdle closeFn now s).1.lastUsed =
      s.lastUsed.filter (fun p => !(decide (now - p.2 > s.maxIdle))) := by
    show ((staleKeys s now).foldl (cleanupStep closeFn) (s, [])).1.lastUsed = _
    rw [hch]
    apply List.filter_congr
    intro p hp
    have hl : mapLookup s.lastUsed p.1 = some p.2 :=
      mapLookup_eq_some_of_mem_nodup hnd hp
    rw [hpt p.1]
    unfold isStale
    rw [hl]
  have hevents : (cleanupIdle closeFn now s).2 =
      (s.lastUsed.filter (fun kt => decide (now - kt.2 > s.maxIdle))).filterMap
        (fun kt => (mapLookup s.clients kt.1).map
          (fun c => PoolEvent.closeAdapter kt.1 (closeFn c))) := by
    show ((staleKeys s now).foldl (cleanupStep closeFn) (s, [])).2 = _
    rw [hch]
    show (staleKeys s now).filterMap _ = _
    unfold staleKeys
    rw [List.filterMap_map]
    rfl
  refine ⟨hclients, hlastUsed, hevents, ?_, ?_⟩
  · rw [hevents]
    apply length_filterMap_of_isSome
    intro kt hkt
    have hm : kt.1 ∈ keys s.lastUsed :=
      List.mem_map_of_mem Prod.fst (List.mem_filter.mp hkt).1
    rw [← hinv] at hm
    have := mapLookup_isSome_of_mem_keys hm
    cases hl : mapLookup s.clients kt.1 with
    | none => rw [hl] at this; exact absurd this (by simp)
    | some c => simp [hl]
  · intro closeFn'
    have hch' := cleanupFold_char closeFn' (staleKeys s now) s [] hndSK hinv
    show ((staleKeys s now).foldl (cleanupStep closeFn') (s, [])).1 =
      ((staleKeys s now).foldl (cleanupStep closeFn) (s, [])).1
    rw [hch, hch']

/-- Witness for C5: a pool with one stale and one fresh entry; the stale
    one is closed (with its error swallowed: the state equals the one
    obtained under an error-free close) and removed, the fresh one stays. -/
theorem cleanupIdle_correct_witness :
    keysEq (⟨[("old", 1), ("new", 2)], [("old", 0), ("new", 95)], 30⟩ :
      PoolState Nat) ∧
    (keys ([("old", (0 : Int)), ("new", 95)])).Nodup ∧
    (cleanupIdle (fun n => if n = 1 then some "bang" else none) 100
      (⟨[("old", 1), ("new", 2)], [("old", 0), ("new", 95)], 30⟩ :
        PoolState Nat)).1.clients = [("new", 2)] ∧
    (cleanupIdle (fun n => if n = 1 then some "bang" else none) 100
      (⟨[("old", 1), ("new", 2)], [("old", 0), ("new", 95)], 30⟩ :
        PoolState Nat)).1.lastUsed = [("new", 95)] ∧
    (cleanupIdle (fun n => if n = 1 then some "bang" else none) 100
      (⟨[("old", 1), ("new", 2)], [("old", 0), ("new", 95)], 30⟩ :
        PoolState Nat)).2 = [PoolEvent.closeAdapter "old" (some "bang")] := by
  have h := cleanupIdle_correct (fun n => if n = 1 then some "bang" else none)
    100 (⟨[("old", 1), ("new", 2)], [("old", 0), ("new", 95)], 30⟩ :
      PoolState Nat) rfl (by decide)
  refine ⟨rfl, by decide, ?_, ?_, ?_⟩
  · rw [h.1]; decide
  · rw [h.2.1]; decide
  · rw [h.2.2.1]; decide

/-- C7: every pool operation — `GetOrCreate` (either path), `Get`,
    `Remove`, `cleanupIdle` and `Close` — keeps the key sets of the
    `clients` and `lastUsed` maps equal; operations are atomic in this
    embedding, matching the source's rule that the two maps only change
    inside one exclusive critical section. -/
theorem pool_ops_preserve_keysEq {A : Type} (closeFn : A → Option String)
    (s : PoolState A) (now : Int) (key platform : String) (cfg : GoConfig)
    (mk : Except String A) (hinv : keysEq s) :
    keysEq (getOrCreate s now key platform cfg mk).2 ∧
    keysEq (poolGet s now key).2 ∧
    keysEq (remove closeFn s key).2 ∧
    keysEq (cleanupIdle closeFn now s).1 ∧
    keysEq (poolClose closeFn s).2.1 := by
  have herase : ∀ k : String, keysEq
      (⟨mapErase s.clients k, mapErase s.lastUsed k, s.maxIdle⟩ : PoolState A) :=
    fun k => keysEq_erase hinv k
  refine ⟨?_, ?_, ?_, ?_, ?_⟩
  · cases hl : mapLookup s.clients key with
    | some c =>
      have hm : key ∈ keys s.lastUsed := by
        rw [← hinv]
        exact mem_keys_of_mapLookup_eq_some hl
      show keysEq (getOrCreate s now key platform cfg mk).2
      simp only [getOrCreate, hl]
      show keys s.clients = keys (mapInsert s.lastUsed key now)
      rw [keys_mapInsert_of_mem _ _ _ hm, hinv]
    | none =>
      cases hcr : createClient mk platform cfg with
      | error e => simp only [getOrCreate, hl, hcr]; exact hinv
      | ok c =>
        have hnc : key ∉ keys s.clients := (mapLookup_eq_none_iff _ _).mp hl
        have hnl : key ∉ keys s.lastUsed := by
          rw [← hinv]; exact hnc
        simp only [getOrCreate, hl, hcr]
        show keys (mapInsert s.clients key c) =
          keys (mapInsert s.lastUsed key now)
        rw [keys_mapInsert_of_not_mem _ _ _ hnc,
          keys_mapInsert_of_not_mem _ _ _ hnl, hinv]
  · cases hl : mapLookup s.clients key with
    | some c =>
      have hm : key ∈ keys s.lastUsed := by
        rw [← hinv]
        exact mem_keys_of_mapLookup_eq_some hl
      simp only [poolGet, hl]
      show keys s.clients = keys (mapInsert s.lastUsed key now)
      rw [keys_mapInsert_of_mem _ _ _ hm, hinv]
    | none => simp only [poolGet, hl]; exact hinv
  · cases hl : mapLookup s.clients key with
    | some c =>
      simp only [remove, hl]
      exact herase key
    | none => simp only [remove, hl]; exact hinv
  · show keysEq ((staleKeys s now).foldl (cleanupStep closeFn) (s, [])).1
    have : ∀ (ks : List String) (st : PoolState A) (evs : List PoolEvent),
        keysEq st → keysEq (ks.foldl (cleanupStep closeFn) (st, evs)).1 := by
      intro ks
      induction ks with
      | nil => intro st evs h; exact h
      | cons k ks ih =>
        intro st evs h
        rw [List.foldl_cons]
        cases hc : mapLookup st.clients k with
        | none =>
          have hstep : cleanupStep closeFn (st, evs) k = (st, evs) := by
            simp [cleanupStep, hc]
          rw [hstep]
          exact ih st evs h
        | some c =>
          have hstep : cleanupStep closeFn (st, evs) k =
              (⟨mapErase st.clients k, mapErase st.lastUsed k, st.maxIdle⟩,
                evs ++ [PoolEvent.closeAdapter k (closeFn c)]) := by
            simp [cleanupStep, hc]
          rw [hstep]
          exact ih _ _ (keysEq_erase h k)
    exact this _ s [] hinv
  · have hch := closeFold_char closeFn s.clients
      (none, s, [PoolEvent.stopLoop, PoolEvent.waitLoop])
    show keysEq (s.clients.foldl (closeStep closeFn)
      (none, s, [PoolEvent.stopLoop, PoolEvent.waitLoop])).2.1
    rw [hch]
    show keys (s.clients.filter (fun p => decide (p.1 ∉ keys s.clients))) =
      keys (s.lastUsed.filter (fun p => decide (p.1 ∉ keys s.clients)))
    rw [keys_filter_notmem, keys_filter_notmem, hinv]

/-- Witness for C7: the five operations applied to a concrete two-entry
    pool with agreeing key sets. -/
theorem pool_ops_preserve_keysEq_witness :
    keysEq (⟨[("a", 1), ("b", 2)], [("a", 10), ("b", 20)], 60⟩ :
      PoolState Nat) ∧
    keysEq (getOrCreate (⟨[("a", 1), ("b", 2)], [("a", 10), ("b", 20)], 60⟩ :
      PoolState Nat) 30 "c" "lark" ⟨none, "lark"⟩ (.ok 3)).2 ∧
    keysEq (poolClose (fun _ => none)
      (⟨[("a", 1), ("b", 2)], [("a", 10), ("b", 20)], 60⟩ :
        PoolState Nat)).2.1 := by
  have h := pool_ops_preserve_keysEq (fun _ => none)
    (⟨[("a", 1), ("b", 2)], [("a", 10), ("b", 20)], 60⟩ : PoolState Nat)
    30 "c" "lark" ⟨none, "lark"⟩ (.ok 3) rfl
  exact ⟨rfl, h.1, h.2.2.2.2⟩

end Parrot
